import Mathlib

/-
Verification development for the PyStickyNotes application
(`src/stickyNotes.py`).  The persistence layer, the toolbar store
operations, the note-window update/close/delete signal cascade, the
title derivation and the geometry/resize arithmetic are embedded as
executable Lean definitions, and the behavioural claims about them are
settled as theorems below.

Modelling conventions:
* Python dicts become association lists that preserve insertion order
  (assignment to an existing key replaces the value in place, a fresh
  key is appended, `del` removes the entry), exactly the observable
  behaviour of CPython dicts.
* The notes file is modelled at the level of the parsed JSON value:
  `none` is a missing file, `some none` an unparseable file
  (`json.JSONDecodeError`), `some (some v)` a file parsing to `v`.
  `json.dump`/`json.load` round-trip the JSON values produced by the
  application, so serialisation is identified with its JSON value.
* Qt signal/slot connections are same-thread direct connections, so an
  `emit` runs the connected slot synchronously; the embedding inlines
  the slot at each emission site, in emission order.
* `QTextDocument.toPlainText` (an opaque Qt HTML-to-text conversion) is
  abstracted as a function parameter `tp : String → String`.
-/

namespace StickyNotes

/-- Python dict assignment `d[k] = v` on an insertion-ordered dict:
replace in place when the key is present, append otherwise. -/
def aInsert {κ α : Type} [DecidableEq κ] (m : List (κ × α)) (k : κ) (v : α) :
    List (κ × α) :=
  if m.any (fun p => decide (p.1 = k)) then
    m.map (fun p => if p.1 = k then (k, v) else p)
  else m ++ [(k, v)]

/-- In-place mutation of the object registered under `k`, visible in
the dict iff `k` is present (mutating a deregistered window does not
re-enter it into the registry). -/
def aUpdate {κ α : Type} [DecidableEq κ] (m : List (κ × α)) (k : κ) (v : α) :
    List (κ × α) :=
  m.map (fun p => if p.1 = k then (k, v) else p)

/-- Python `del d[k]`. -/
def aErase {κ α : Type} [DecidableEq κ] (m : List (κ × α)) (k : κ) :
    List (κ × α) :=
  m.filter (fun p => !decide (p.1 = k))

/-- Python `k in d`. -/
def aMem {κ α : Type} [DecidableEq κ] (m : List (κ × α)) (k : κ) : Bool :=
  m.any (fun p => decide (p.1 = k))

/-- Python `d[k]` / `d.get(k)` on an insertion-ordered dict. -/
def aLookup {κ α : Type} [DecidableEq κ] (m : List (κ × α)) (k : κ) :
    Option α :=
  match m with
  | [] => none
  | p :: rest => if p.1 = k then some p.2 else aLookup rest k

/-- A JSON value, as produced by `json.load`.  Object field names are
unique, as in every file the application itself writes. -/
inductive JValue where
  | null : JValue
  | bool (b : Bool) : JValue
  | num (n : Int) : JValue
  | str (s : String) : JValue
  | arr (elems : List JValue) : JValue
  | obj (fields : List (String × JValue)) : JValue

/-- A hashable JSON value, usable as a Python dict key.  Lists and
dicts are unhashable and cannot be keys. -/
inductive JKey where
  | null : JKey
  | bool (b : Bool) : JKey
  | num (n : Int) : JKey
  | str (s : String) : JKey
deriving DecidableEq

/-- `keyOf v` is the dict key obtained from JSON value `v`, or `none`
when `v` is unhashable (a list or a dict), in which case the dict
comprehension in `_load_notes` raises `TypeError`. -/
def keyOf : JValue → Option JKey
  | .null => some .null
  | .bool b => some (.bool b)
  | .num n => some (.num n)
  | .str s => some (.str s)
  | .arr _ => none
  | .obj _ => none

/-- Field access `note["key"]` on a JSON object. -/
def lookupField : List (String × JValue) → String → Option JValue
  | [], _ => none
  | (k, v) :: rest, key => if k = key then some v else lookupField rest key

/-- The in-memory store `self.notes` at the raw JSON level: an
insertion-ordered dict from hashable id to the full note record. -/
abbrev RawStore : Type := List (JKey × JValue)

/-- The dict comprehension in `_load_notes`
(`{note["id"]: note for note in loaded_notes_list}`), folded over the
decoded list.  Returns `none` when an item access raises
(`note` is not a dict, has no `"id"` field, or its id is unhashable);
the exception is caught by the surrounding `except` clause. -/
def buildNotesDict : List JValue → RawStore → Option RawStore
  | [], acc => some acc
  | note :: rest, acc =>
    match note with
    | .obj fs =>
      match lookupField fs "id" with
      | some idv =>
        match keyOf idv with
        | some k => buildNotesDict rest (aInsert acc k note)
        | none => none
      | none => none
    | _ => none

/-- The record dict extracted from the parsed file value: the dict
comprehension applied to a decoded array, `none` when the comprehension
raises a caught exception; a non-array top level either raises on item
access or iterates to nothing, and in both cases the store comes out
empty. -/
def extractRecords : JValue → Option RawStore
  | .arr notes => buildNotesDict notes []
  | _ => none

/-- `SideToolbarApp._load_notes` (src/stickyNotes.py:563-577), as a
function of the file contents.  A missing file, an unparseable file, or
a parsed value from which the dict comprehension cannot build the
id-to-record dict (the `except` branches) all yield the empty store.
The function is total: no input makes it fail. -/
def _load_notes : Option (Option JValue) → RawStore
  | none => []
  | some none => []
  | some (some v) =>
    match extractRecords v with
    | some m => m
    | none => []

/-- The JSON value `_save_notes` writes:
`json.dump(list(self.notes.values()), f)` (src/stickyNotes.py:583). -/
def notesFileValue (S : RawStore) : JValue :=
  .arr (S.map Prod.snd)

/-- The toolbar state seen by `_save_notes`: the in-memory store and
the current notes-file contents. -/
structure SaveState where
  notes : RawStore
  file : Option (Option JValue)

/-- `SideToolbarApp._save_notes` (src/stickyNotes.py:579-585).
`writeOk` records whether the `open`/`json.dump` succeeds; on failure
the `except` clause only prints, touching neither the store nor (in
this model) the file.  The function is total: no outcome raises. -/
def _save_notes (st : SaveState) (writeOk : Bool) : SaveState :=
  if writeOk then { st with file := some (some (notesFileValue st.notes)) }
  else st

/-- A well-formed store entry: the record is a JSON object whose
`"id"` field is a string equal to the entry's key. -/
def isWfEntry : JKey × JValue → Bool
  | (k, .obj fs) =>
    match lookupField fs "id" with
    | some (.str s) => decide (k = .str s)
    | _ => false
  | _ => false

/-- Pairwise-distinct keys of a raw store. -/
def keysNodupR : RawStore → Bool
  | [] => true
  | p :: rest => !(rest.any (fun q => decide (q.1 = p.1))) && keysNodupR rest

/-- A well-formed store: every record is a dict with a string `"id"`
field equal to its key, and the ids are pairwise distinct. -/
def wfStore (S : RawStore) : Bool :=
  S.all isWfEntry && keysNodupR S

/-- A note record with the fields every record written by the
application carries (`src/stickyNotes.py:22-32`): `"id"`, `"title"`,
`"content"`, `"x"`, `"y"`, `"width"`, `"height"`. -/
structure Note where
  id : String
  title : String
  content : String
  x : Int
  y : Int
  width : Int
  height : Int
deriving DecidableEq

/-- `PREVIEW_LINES` (src/stickyNotes.py:17). -/
def PREVIEW_LINES : Nat := 5

/-- ASCII lower-casing of one character, the case mapping relevant to
the titles appearing in the claims (`str.lower`). -/
def lowerChar (c : Char) : Char :=
  if 65 ≤ c.toNat ∧ c.toNat ≤ 90 then Char.ofNat (c.toNat + 32) else c

/-- `s.lower()` on a string. -/
def lowerStr (s : String) : String := ⟨s.data.map lowerChar⟩

/-- The whitespace characters removed by Python `str.strip()` (ASCII
range). -/
def isStripChar (c : Char) : Bool :=
  c = ' ' || c = '\t' || c = '\n' || c = '\r' || c = '\x0b' || c = '\x0c'

/-- `str.strip()` on a character list. -/
def stripChars (l : List Char) : List Char :=
  ((l.dropWhile isStripChar).reverse.dropWhile isStripChar).reverse

/-- `str.strip()` on a string. -/
def strip (s : String) : String := ⟨stripChars s.data⟩

/-- Python `s.split('\n')`: the empty string yields `[""]`. -/
def splitNL : List Char → List (List Char)
  | [] => [[]]
  | c :: rest =>
    let r := splitNL rest
    if c = '\n' then [] :: r
    else
      match r with
      | line :: more => (c :: line) :: more
      | [] => [[c]]

/-- Python `"\n".join(lines)`. -/
def joinNL : List (List Char) → List Char
  | [] => []
  | [l] => l
  | l :: rest => l ++ '\n' :: joinNL rest

/-- The title computed by `StickyNoteWindow._on_text_changed`
(src/stickyNotes.py:297-303): the first `PREVIEW_LINES` lines of the
plain text of the content, rejoined and stripped, falling back to
`f"New Note {self.note_id[:8]}"` when empty.  `tp` abstracts
`QTextDocument.setHtml` followed by `toPlainText`. -/
def deriveTitle (tp : String → String) (html : String) (noteId : String) : String :=
  let title_text := splitNL (tp html).data
  let new_title := stripChars (joinNL (title_text.take PREVIEW_LINES))
  if new_title = [] then ⟨"New Note ".data ++ noteId.data.take 8⟩
  else ⟨new_title⟩

/-- `StickyNoteWindow._on_text_changed` (src/stickyNotes.py:288-309),
restricted to its effect on the window's note record: store the
current editor payload as the content and re-derive the title from it
using the window's `note_id`.  The updated record is then emitted via
`note_updated`. -/
def _on_text_changed (tp : String → String) (noteId : String) (nd : Note)
    (html : String) : Note :=
  let nd1 := { nd with content := html }
  { nd1 with title := deriveTitle tp html noteId }

/-- Code-point lexicographic `<` on character lists, Python's `<` on
the strings `sorted` compares. -/
def lexLtChars : List Char → List Char → Bool
  | _, [] => false
  | [], _ :: _ => true
  | a :: as, b :: bs =>
    if a.toNat < b.toNat then true
    else if b.toNat < a.toNat then false
    else lexLtChars as bs

/-- Stable insertion of one store entry into a list sorted by
lower-cased title, the sort key of `_display_notes`
(src/stickyNotes.py:599). -/
def insertSortedNote (p : String × Note) :
    List (String × Note) → List (String × Note)
  | [] => [p]
  | q :: qs =>
    if lexLtChars (lowerStr q.2.title).data (lowerStr p.2.title).data then
      q :: insertSortedNote p qs
    else p :: q :: qs

/-- Stable sort of the store entries by lower-cased title
(`sorted(self.notes.keys(), key=...)`, src/stickyNotes.py:599). -/
def sortNotes : List (String × Note) → List (String × Note)
  | [] => []
  | p :: ps => insertSortedNote p (sortNotes ps)

/-- `needle` is a prefix of `hay`. -/
def startsWithL : List Char → List Char → Bool
  | [], _ => true
  | _ :: _, [] => false
  | a :: as, b :: bs => a = b && startsWithL as bs

/-- Python substring test `needle in hay`. -/
def containsSub (needle hay : List Char) : Bool :=
  match hay with
  | [] => needle.isEmpty
  | _ :: rest => startsWithL needle hay || containsSub needle rest

/-- `SideToolbarApp._display_notes` (src/stickyNotes.py:587-611) as the
list of `(note_id, displayed title)` preview entries it creates: the
store entries sorted case-insensitively by title, keeping those whose
stripped lower-cased title contains the lower-cased filter text (an
empty filter keeps everything). -/
def _display_notes (notes : List (String × Note)) (filterInput : String) :
    List (String × String) :=
  let filter_text := lowerStr filterInput
  (sortNotes notes).filterMap (fun p =>
    let note_title : String := strip p.2.title
    if !filter_text.data.isEmpty && !containsSub filter_text.data (lowerStr note_title).data
    then none
    else some (p.1, note_title))

/-- A window geometry, as used by `self.geometry()`/`setGeometry`. -/
structure Geom where
  x : Int
  y : Int
  w : Int
  h : Int
deriving DecidableEq

/-- `self.minimumWidth()`: `setMinimumSize(200, 150)`
(src/stickyNotes.py:120). -/
def minW : Int := 200

/-- `self.minimumHeight()` (src/stickyNotes.py:120). -/
def minH : Int := 150

/-- The edge set recorded in `self.resizing_from` at press time.  The
source stores one of the eight strings `'left'`, `'right'`, `'top'`,
`'bottom'`, `'top_left'`, `'top_right'`, `'bottom_left'`,
`'bottom_right'` and tests them with substring membership
(`'left' in self.resizing_from` etc.); the four Booleans record exactly
those membership tests. -/
structure EdgeSet where
  hasLeft : Bool
  hasRight : Bool
  hasTop : Bool
  hasBottom : Bool
deriving DecidableEq

/-- `self.resizing_from == 'left'`. -/
def leftEdge : EdgeSet := ⟨true, false, false, false⟩

/-- `self.resizing_from == 'top'`. -/
def topEdge : EdgeSet := ⟨false, false, true, false⟩

/-- `self.resizing_from == 'top_left'`. -/
def topLeftEdge : EdgeSet := ⟨true, false, true, false⟩

/-- `self.resizing_from == 'bottom_right'`. -/
def bottomRightEdge : EdgeSet := ⟨false, true, false, true⟩

/-- The geometry computed by the resizing branch of
`StickyNoteWindow.mouseMoveEvent` (src/stickyNotes.py:226-250) from
the recorded start geometry `rect` and the cumulative cursor delta
`(dx, dy)`.  The source assigns `new_w`/`new_x` sequentially; since the
`'left'` branch runs after the `'right'` branch and overwrites `new_w`,
the sequential assignments collapse to the conditionals below.  The
final `setGeometry` applies the computed quadruple. -/
def resizeMove (es : EdgeSet) (rect : Geom) (dx dy : Int) : Geom :=
  let nw : Int :=
    if es.hasLeft then max minW (rect.w - dx)
    else if es.hasRight then max minW (rect.w + dx)
    else rect.w
  let nx : Int :=
    if es.hasLeft then
      if max minW (rect.w - dx) ≤ minW ∧ minW < rect.w then
        rect.x + (rect.w - minW)
      else rect.x + dx
    else rect.x
  let nh : Int :=
    if es.hasTop then max minH (rect.h - dy)
    else if es.hasBottom then max minH (rect.h + dy)
    else rect.h
  let ny : Int :=
    if es.hasTop then
      if max minH (rect.h - dy) ≤ minH ∧ minH < rect.h then
        rect.y + (rect.h - minH)
      else rect.y + dy
    else rect.y
  ⟨nx, ny, nw, nh⟩

/-- One live `StickyNoteWindow` as seen through the open-window
registry: the window's `note_data` record and whether the window is
currently visible (closing hides a window but does not remove it from
the registry). -/
structure WinState where
  data : Note
  visible : Bool
deriving DecidableEq

/-- The `SideToolbarApp` state the claims are about: the store
`self.notes` and the open-window registry `self.open_sticky_notes`
(src/stickyNotes.py:409-410), both insertion-ordered dicts. -/
structure AppState where
  notes : List (String × Note)
  openWins : List (String × WinState)
deriving DecidableEq

/-- The state after `SideToolbarApp.__init__` with no notes file. -/
def startState : AppState := ⟨[], []⟩

/-- The record created by `_add_new_note` (src/stickyNotes.py:620-625). -/
def newNoteData (newId : String) : Note :=
  ⟨newId, "New Note", "", 100, 100, 400, 300⟩

/-- Geometry snapshot taken by `StickyNoteWindow.closeEvent`
(src/stickyNotes.py:334-337). -/
def setGeomOnClose (nd : Note) (g : Geom) : Note :=
  { nd with x := g.x, y := g.y, width := g.w, height := g.h }

/-- `SideToolbarApp._handle_note_update` (src/stickyNotes.py:648-652):
overwrite the store entry with the emitted record (saving and
re-rendering do not change the state components modelled here). -/
def _handle_note_update (st : AppState) (noteId : String) (nd : Note) :
    AppState :=
  { st with notes := aInsert st.notes noteId nd }

/-- `StickyNoteWindow.closeEvent` (src/stickyNotes.py:330-339) on the
window `w` registered (if at all) under `noteId`: snapshot the current
geometry `g` into the window's `note_data`, emit `note_updated` (which
runs `_handle_note_update` synchronously), and hide the window.  The
mutated, now hidden, window object is what the registry sees if the id
is still registered. -/
def windowCloseEvent (st : AppState) (noteId : String) (w : WinState)
    (g : Geom) : AppState :=
  let nd := setGeomOnClose w.data g
  let st1 := _handle_note_update st noteId nd
  { st1 with openWins := aUpdate st1.openWins noteId ⟨nd, false⟩ }

/-- The window-construction branch of `_open_sticky_note`
(src/stickyNotes.py:637-646): build a window from the stored record and
register it; a missing record only shows a warning box. -/
def openNewWindow (st : AppState) (noteId : String) : AppState :=
  match aLookup st.notes noteId with
  | some nd => { st with openWins := aInsert st.openWins noteId ⟨nd, true⟩ }
  | none => st

/-- `SideToolbarApp._open_sticky_note` (src/stickyNotes.py:631-646):
an already open and visible window is only raised; otherwise a new
window is constructed from the stored record. -/
def _open_sticky_note (st : AppState) (noteId : String) : AppState :=
  match aLookup st.openWins noteId with
  | some w => if w.visible then st else openNewWindow st noteId
  | none => openNewWindow st noteId

/-- `SideToolbarApp._add_new_note` (src/stickyNotes.py:617-629) with
the fresh uuid `newId`: insert the default record, persist, and open
its window immediately. -/
def _add_new_note (st : AppState) (newId : String) : AppState :=
  let st1 := { st with notes := aInsert st.notes newId (newNoteData newId) }
  _open_sticky_note st1 newId

/-- A text edit inside the window registered under `noteId`:
`_on_text_changed` mutates the window's `note_data` and emits
`note_updated`, which `_handle_note_update` receives synchronously. -/
def editTextStep (tp : String → String) (st : AppState) (noteId : String)
    (html : String) : AppState :=
  match aLookup st.openWins noteId with
  | some w =>
    let nd := _on_text_changed tp noteId w.data html
    let st1 := { st with openWins := aUpdate st.openWins noteId ⟨nd, w.visible⟩ }
    _handle_note_update st1 noteId nd
  | none => st

/-- The user closes the visible window registered under `noteId`
(title-bar close button), with current geometry `g`. -/
def closeStep (st : AppState) (noteId : String) (g : Geom) : AppState :=
  match aLookup st.openWins noteId with
  | some w => if w.visible then windowCloseEvent st noteId w g else st
  | none => st

/-- `SideToolbarApp._handle_note_deletion` (src/stickyNotes.py:654-662):
when the id is in the store, delete it, persist, re-render, and — when
a window is registered for the id — close that window (whose
`closeEvent` synchronously emits `note_updated`, re-inserting the
record via `_handle_note_update`) and deregister it.  `g` is the
closed window's geometry at that moment. -/
def _handle_note_deletion (st : AppState) (noteId : String) (g : Geom) :
    AppState :=
  if aMem st.notes noteId then
    let st1 := { st with notes := aErase st.notes noteId }
    match aLookup st1.openWins noteId with
    | some w =>
      let st2 := windowCloseEvent st1 noteId w g
      { st2 with openWins := aErase st2.openWins noteId }
    | none => st1
  else st

/-- `SideToolbarApp._delete_note_from_toolbar`
(src/stickyNotes.py:664-673), whose body is line-for-line that of
`_handle_note_deletion`. -/
def _delete_note_from_toolbar (st : AppState) (noteId : String) (g : Geom) :
    AppState :=
  _handle_note_deletion st noteId g

/-- `StickyNoteWindow._delete_note` (src/stickyNotes.py:325-328) on the
confirmed delete button of window `w`: emit `note_deleted` (running
`_handle_note_deletion` synchronously), then `self.close()`, whose
`closeEvent` emits `note_updated` once more with the window's mutated
`note_data` (its geometry snapshot is idempotent, so the emitted record
is `setGeomOnClose w.data g` in every case). -/
def _delete_note (st : AppState) (noteId : String) (w : WinState) (g : Geom) :
    AppState :=
  let st1 := _handle_note_deletion st noteId g
  windowCloseEvent st1 noteId w g

/-- The store-mutating user events the invariant claims quantify over. -/
inductive Op where
  | addNew (newId : String) : Op
  | openNote (noteId : String) : Op
  | editText (noteId : String) (html : String) : Op
  | closeWin (noteId : String) (g : Geom) : Op
  | deleteFromToolbar (noteId : String) (g : Geom) : Op
  | deleteFromWindow (noteId : String) (g : Geom) : Op

/-- One user event applied to the application state.  Deleting from an
open window requires the registered, visible window. -/
def applyOp (tp : String → String) (st : AppState) : Op → AppState
  | .addNew newId => _add_new_note st newId
  | .openNote noteId => _open_sticky_note st noteId
  | .editText noteId html => editTextStep tp st noteId html
  | .closeWin noteId g => closeStep st noteId g
  | .deleteFromToolbar noteId g => _delete_note_from_toolbar st noteId g
  | .deleteFromWindow noteId g =>
    match aLookup st.openWins noteId with
    | some w => if w.visible then _delete_note st noteId w g else st
    | none => st

theorem all_aInsert {κ α : Type} [DecidableEq κ] (f : κ × α → Bool)
    (m : List (κ × α)) (k : κ) (v : α) (hm : m.all f = true)
    (hv : f (k, v) = true) : (aInsert m k v).all f = true := by
  unfold aInsert
  split
  · simp only [List.all_map, List.all_eq_true, Function.comp_apply]
    intro p hp
    split
    · exact hv
    · exact List.all_eq_true.mp hm p hp
  · simp only [List.all_append, List.all_cons, List.all_nil, Bool.and_eq_true]
    exact ⟨hm, hv, trivial⟩

theorem all_aUpdate {κ α : Type} [DecidableEq κ] (f : κ × α → Bool)
    (m : List (κ × α)) (k : κ) (v : α) (hm : m.all f = true)
    (hv : f (k, v) = true) : (aUpdate m k v).all f = true := by
  unfold aUpdate
  simp only [List.all_map, List.all_eq_true, Function.comp_apply]
  intro p hp
  split
  · exact hv
  · exact List.all_eq_true.mp hm p hp

theorem all_aErase {κ α : Type} [DecidableEq κ] (f : κ × α → Bool)
    (m : List (κ × α)) (k : κ) (hm : m.all f = true) :
    (aErase m k).all f = true := by
  rw [List.all_eq_true] at hm ⊢
  intro p hp
  exact hm p (List.mem_of_mem_filter hp)

theorem aLookup_of_all {κ α : Type} [DecidableEq κ] (f : κ × α → Bool)
    (m : List (κ × α)) (k : κ) (v : α) (hm : m.all f = true)
    (h : aLookup m k = some v) : f (k, v) = true := by
  induction m with
  | nil => simp [aLookup] at h
  | cons p rest ih =>
    rw [List.all_cons, Bool.and_eq_true] at hm
    simp only [aLookup] at h
    by_cases hpk : p.1 = k
    · rw [if_pos hpk] at h
      injection h with h2
      subst h2
      rw [← hpk, Prod.mk.eta]
      exact hm.1
    · rw [if_neg hpk] at h
      exact ih hm.2 h

theorem aInsert_of_fresh {κ α : Type} [DecidableEq κ] (m : List (κ × α))
    (k : κ) (v : α) (h : m.any (fun p => decide (p.1 = k)) = false) :
    aInsert m k v = m ++ [(k, v)] := by
  unfold aInsert
  rw [h]
  simp

theorem buildNotesDict_roundtrip (S : RawStore) :
    ∀ acc : RawStore, S.all isWfEntry = true → keysNodupR S = true →
    (∀ p ∈ S, acc.any (fun q => decide (q.1 = p.1)) = false) →
    buildNotesDict (S.map Prod.snd) acc = some (acc ++ S) := by
  induction S with
  | nil =>
    intro acc _ _ _
    simp [buildNotesDict]
  | cons p rest ih =>
    intro acc h1 h2 h3
    obtain ⟨k, v⟩ := p
    rw [List.all_cons, Bool.and_eq_true] at h1
    obtain ⟨hwf, hrest⟩ := h1
    simp only [keysNodupR, Bool.and_eq_true, Bool.not_eq_true'] at h2
    obtain ⟨hnodup, hrestnd⟩ := h2
    cases v with
    | obj fs =>
      simp only [isWfEntry] at hwf
      rcases hl : lookupField fs "id" with _ | idv
      · rw [hl] at hwf
        simp at hwf
      · rw [hl] at hwf
        cases idv with
        | str s =>
          simp only [decide_eq_true_eq] at hwf
          subst hwf
          rw [List.map_cons]
          simp only [buildNotesDict, hl, keyOf]
          have hacc : acc.any (fun q => decide (q.1 = JKey.str s)) = false := by
            have := h3 (JKey.str s, JValue.obj fs) (List.mem_cons_self _ _)
            simpa using this
          rw [aInsert_of_fresh acc _ _ hacc]
          rw [ih (acc ++ [(JKey.str s, JValue.obj fs)]) hrest hrestnd ?fresh]
          · simp
          case fresh =>
            intro q hq
            rw [List.any_append]
            have h4 := h3 q (List.mem_cons_of_mem _ hq)
            rw [h4]
            simp only [List.any_cons, List.any_nil, Bool.false_or, Bool.or_false]
            have h5 : ∀ r ∈ rest, decide (r.1 = JKey.str s) = false := by
              intro r hr
              rcases List.any_eq_false.mp hnodup (r.1, r.2) (by simpa using hr) with h6
              simpa using h6
            have h7 := h5 q hq
            simp only [decide_eq_false_iff_not] at h7 ⊢
            exact fun h8 => h7 h8.symm
        | null => simp at hwf
        | bool b => simp at hwf
        | num n => simp at hwf
        | arr l => simp at hwf
        | obj fs2 => simp at hwf
    | null => simp [isWfEntry] at hwf
    | bool b => simp [isWfEntry] at hwf
    | num n => simp [isWfEntry] at hwf
    | str s => simp [isWfEntry] at hwf
    | arr l => simp [isWfEntry] at hwf

/-- C2: for every well-formed store `S` (each record a dict whose
string `"id"` field equals its key in the map, ids pairwise distinct),
loading the file produced by saving `S` — i.e. the JSON array
`list(self.notes.values())` that `_save_notes` writes — rebuilds
exactly `S`: `load(serialize(S)) == S`. -/
theorem load_serialize_roundtrip (S : RawStore) (h : wfStore S = true) :
    _load_notes (some (some (notesFileValue S))) = S := by
  rw [wfStore, Bool.and_eq_true] at h
  have hrt := buildNotesDict_roundtrip S [] h.1 h.2 (by intro p _; rfl)
  simp only [_load_notes, notesFileValue, extractRecords, hrt, List.nil_append]

/-- A small concrete well-formed store for the round-trip witness. -/
def wfExample : RawStore :=
  [(.str "a", .obj [("id", .str "a"), ("title", .str "alpha")]),
   (.str "b", .obj [("id", .str "b"), ("title", .str "beta")])]

/-- Witness for C2 at a concrete two-record store. -/
theorem load_serialize_roundtrip_witness :
    wfStore wfExample = true
    ∧ _load_notes (some (some (notesFileValue wfExample))) = wfExample :=
  ⟨by decide, load_serialize_roundtrip wfExample (by decide)⟩

/-- C5: `_load_notes` yields the empty store on a missing file, on an
unparseable file, and on any parsed value from which the record dict
cannot be extracted; being a total function, it raises nothing on any
input (the `except` clauses in the source catch every failure and only
log). -/
theorem load_failure_yields_empty_store :
    _load_notes none = [] ∧ _load_notes (some none) = []
    ∧ ∀ v : JValue, extractRecords v = none →
        _load_notes (some (some v)) = [] := by
  refine ⟨rfl, rfl, ?_⟩
  intro v hv
  simp only [_load_notes, hv]

/-- Witness for C5 at a parsed-but-unextractable value (`3` is not a
list of records). -/
theorem load_failure_yields_empty_store_witness :
    _load_notes (some (some (JValue.num 3))) = [] :=
  load_failure_yields_empty_store.2.2 (JValue.num 3) rfl

/-- C6: `_save_notes` writes the JSON array of all current records,
overwriting the file, and for every outcome of the write — success or
failure — the in-memory store is untouched; the `except` clause only
logs, so the function is total and raises nothing. -/
theorem save_serializes_and_preserves_store (st : SaveState) :
    (_save_notes st true).file = some (some (notesFileValue st.notes))
    ∧ ∀ ok : Bool, (_save_notes st ok).notes = st.notes := by
  refine ⟨rfl, ?_⟩
  intro ok
  cases ok
  · rfl
  · rfl

/-- A raw store entry whose record is a dict with an `"id"` field that
hashes to the entry's key — the shape every entry built by the load
comprehension has. -/
def storeIdOkRaw : JKey × JValue → Bool
  | (k, .obj fs) =>
    match lookupField fs "id" with
    | some idv => decide (keyOf idv = some k)
    | none => false
  | _ => false

theorem buildNotesDict_idOk (l : List JValue) :
    ∀ acc m : RawStore, acc.all storeIdOkRaw = true →
    buildNotesDict l acc = some m → m.all storeIdOkRaw = true := by
  induction l with
  | nil =>
    intro acc m ha h
    simp only [buildNotesDict] at h
    injection h with h2
    rw [← h2]
    exact ha
  | cons note rest ih =>
    intro acc m ha h
    cases note with
    | obj fs =>
      simp only [buildNotesDict] at h
      split at h
      · rename_i idv heq
        split at h
        · rename_i k hk
          refine ih (aInsert acc k (JValue.obj fs)) m ?_ h
          refine all_aInsert _ _ _ _ ha ?_
          simp only [storeIdOkRaw, heq, hk]
          simp
        · simp at h
      · simp at h
    | null => simp [buildNotesDict] at h
    | bool b => simp [buildNotesDict] at h
    | num n => simp [buildNotesDict] at h
    | str s => simp [buildNotesDict] at h
    | arr l2 => simp [buildNotesDict] at h

theorem load_establishes_idOk (file : Option (Option JValue)) :
    (_load_notes file).all storeIdOkRaw = true := by
  match file with
  | none => rfl
  | some none => rfl
  | some (some v) =>
    cases v with
    | arr notes =>
      simp only [_load_notes, extractRecords]
      rcases h : buildNotesDict notes [] with _ | m
      · rfl
      · exact buildNotesDict_idOk notes [] m rfl h
    | null => rfl
    | bool b => rfl
    | num n => rfl
    | str s => rfl
    | obj fs => rfl

/-- The typed id invariant: every store entry and every registered
window carries a record whose `"id"` field equals its key. -/
def idInvB (st : AppState) : Bool :=
  st.notes.all (fun p => decide (p.2.id = p.1)) &&
  st.openWins.all (fun p => decide (p.2.data.id = p.1))

theorem idInv_split (st : AppState) :
    idInvB st = true ↔
    (st.notes.all (fun p => decide (p.2.id = p.1)) = true
     ∧ st.openWins.all (fun p => decide (p.2.data.id = p.1)) = true) := by
  rw [idInvB, Bool.and_eq_true]

theorem idInv_handle_note_update (st : AppState) (noteId : String) (nd : Note)
    (hnd : nd.id = noteId) (h : idInvB st = true) :
    idInvB (_handle_note_update st noteId nd) = true := by
  rw [idInv_split] at h ⊢
  exact ⟨all_aInsert _ _ _ _ h.1 (by simp [hnd]), h.2⟩

theorem idInv_windowCloseEvent (st : AppState) (noteId : String)
    (w : WinState) (g : Geom) (hw : w.data.id = noteId)
    (h : idInvB st = true) :
    idInvB (windowCloseEvent st noteId w g) = true := by
  rw [idInv_split] at h ⊢
  constructor
  · exact all_aInsert _ _ _ _ h.1 (by simp [setGeomOnClose, hw])
  · exact all_aUpdate _ _ _ _ h.2 (by simp [setGeomOnClose, hw])

theorem idInv_openNewWindow (st : AppState) (noteId : String)
    (h : idInvB st = true) : idInvB (openNewWindow st noteId) = true := by
  unfold openNewWindow
  rcases hl : aLookup st.notes noteId with _ | nd
  · exact h
  · have hid : nd.id = noteId := by
      have h2 := aLookup_of_all _ st.notes noteId nd ((idInv_split st).mp h).1 hl
      simpa using h2
    rw [idInv_split] at h ⊢
    exact ⟨h.1, all_aInsert _ _ _ _ h.2 (by simp [hid])⟩

theorem idInv_open_sticky_note (st : AppState) (noteId : String)
    (h : idInvB st = true) : idInvB (_open_sticky_note st noteId) = true := by
  unfold _open_sticky_note
  rcases hl : aLookup st.openWins noteId with _ | w
  · simp only [hl]
    exact idInv_openNewWindow st noteId h
  · simp only [hl]
    split
    · exact h
    · exact idInv_openNewWindow st noteId h

theorem idInv_add_new_note (st : AppState) (newId : String)
    (h : idInvB st = true) : idInvB (_add_new_note st newId) = true := by
  unfold _add_new_note
  apply idInv_open_sticky_note
  rw [idInv_split] at h ⊢
  exact ⟨all_aInsert _ _ _ _ h.1 (by simp [newNoteData]), h.2⟩

theorem idInv_editTextStep (tp : String → String) (st : AppState)
    (noteId : String) (html : String) (h : idInvB st = true) :
    idInvB (editTextStep tp st noteId html) = true := by
  unfold editTextStep
  rcases hl : aLookup st.openWins noteId with _ | w
  · exact h
  · have hid : w.data.id = noteId := by
      have h2 := aLookup_of_all _ st.openWins noteId w ((idInv_split st).mp h).2 hl
      simpa using h2
    have hnd : (_on_text_changed tp noteId w.data html).id = noteId := hid
    apply idInv_handle_note_update _ _ _ hnd
    rw [idInv_split] at h ⊢
    exact ⟨h.1, all_aUpdate _ _ _ _ h.2 (by simpa using hnd)⟩

theorem idInv_closeStep (st : AppState) (noteId : String) (g : Geom)
    (h : idInvB st = true) : idInvB (closeStep st noteId g) = true := by
  unfold closeStep
  rcases hl : aLookup st.openWins noteId with _ | w
  · simp only [hl]
    exact h
  · have hid : w.data.id = noteId := by
      have h2 := aLookup_of_all _ st.openWins noteId w ((idInv_split st).mp h).2 hl
      simpa using h2
    simp only [hl]
    split
    · exact idInv_windowCloseEvent st noteId w g hid h
    · exact h

theorem idInv_handle_note_deletion (st : AppState) (noteId : String)
    (g : Geom) (h : idInvB st = true) :
    idInvB (_handle_note_deletion st noteId g) = true := by
  obtain ⟨ns, ws⟩ := st
  rw [idInv_split] at h
  unfold _handle_note_deletion
  split
  · have h1 : idInvB ⟨aErase ns noteId, ws⟩ = true := by
      rw [idInv_split]
      exact ⟨all_aErase _ _ _ h.1, h.2⟩
    show idInvB
      (match aLookup ws noteId with
       | some w =>
         let st2 := windowCloseEvent ⟨aErase ns noteId, ws⟩ noteId w g
         { st2 with openWins := aErase st2.openWins noteId }
       | none => ⟨aErase ns noteId, ws⟩) = true
    rcases hl : aLookup ws noteId with _ | w
    · exact h1
    · have hid : w.data.id = noteId := by
        have h2 := aLookup_of_all _ ws noteId w h.2 hl
        simpa using h2
      have h2 := idInv_windowCloseEvent ⟨aErase ns noteId, ws⟩ noteId w g hid h1
      rw [idInv_split] at h2
      rw [idInv_split]
      exact ⟨h2.1, all_aErase _ _ _ h2.2⟩
  · rw [idInv_split]
    exact h

theorem idInv_delete_note (st : AppState) (noteId : String) (w : WinState)
    (g : Geom) (hw : w.data.id = noteId) (h : idInvB st = true) :
    idInvB (_delete_note st noteId w g) = true := by
  unfold _delete_note
  exact idInv_windowCloseEvent _ noteId w g hw
    (idInv_handle_note_deletion st noteId g h)

theorem idInv_applyOp (tp : String → String) (st : AppState) (op : Op)
    (h : idInvB st = true) : idInvB (applyOp tp st op) = true := by
  cases op with
  | addNew newId => exact idInv_add_new_note st newId h
  | openNote noteId => exact idInv_open_sticky_note st noteId h
  | editText noteId html => exact idInv_editTextStep tp st noteId html h
  | closeWin noteId g => exact idInv_closeStep st noteId g h
  | deleteFromToolbar noteId g => exact idInv_handle_note_deletion st noteId g h
  | deleteFromWindow noteId g =>
    simp only [applyOp]
    rcases hl : aLookup st.openWins noteId with _ | w
    · simp only [hl]
      exact h
    · have hid : w.data.id = noteId := by
        have h2 := aLookup_of_all _ st.openWins noteId w ((idInv_split st).mp h).2 hl
        simpa using h2
      simp only [hl]
      split
      · exact idInv_delete_note st noteId w g hid h
      · exact h

/-- A record whose title is consistent with the application's title
discipline: either the title is the one `_on_text_changed` derives from
the record's content and id, or the record is an untouched fresh note —
constant title `"New Note"` with empty content, as `_add_new_note`
creates it. -/
def titleOkB (tp : String → String) (nd : Note) : Bool :=
  decide (nd.title = deriveTitle tp nd.content nd.id)
  || (decide (nd.title = "New Note") && decide (nd.content = ""))

/-- The title invariant over the whole application state: every store
record and every registered window's record satisfies `titleOkB`. -/
def titleInvB (tp : String → String) (st : AppState) : Bool :=
  st.notes.all (fun p => titleOkB tp p.2) &&
  st.openWins.all (fun p => titleOkB tp p.2.data)

/-- The combined reachability invariant: id consistency plus the title
discipline. -/
def appInvB (tp : String → String) (st : AppState) : Bool :=
  idInvB st && titleInvB tp st

theorem titleInv_split (tp : String → String) (st : AppState) :
    titleInvB tp st = true ↔
    (st.notes.all (fun p => titleOkB tp p.2) = true
     ∧ st.openWins.all (fun p => titleOkB tp p.2.data) = true) := by
  rw [titleInvB, Bool.and_eq_true]

theorem appInv_split (tp : String → String) (st : AppState) :
    appInvB tp st = true ↔
    (idInvB st = true ∧ titleInvB tp st = true) := by
  rw [appInvB, Bool.and_eq_true]

theorem titleOk_setGeomOnClose (tp : String → String) (nd : Note) (g : Geom) :
    titleOkB tp (setGeomOnClose nd g) = titleOkB tp nd := rfl

theorem titleOk_newNoteData (tp : String → String) (newId : String) :
    titleOkB tp (newNoteData newId) = true := by
  simp [titleOkB, newNoteData]

theorem titleOk_on_text_changed (tp : String → String) (noteId : String)
    (nd : Note) (html : String) (hid : nd.id = noteId) :
    titleOkB tp (_on_text_changed tp noteId nd html) = true := by
  simp only [titleOkB, _on_text_changed, hid]
  simp

theorem appInv_handle_note_update (tp : String → String) (st : AppState)
    (noteId : String) (nd : Note) (hid : nd.id = noteId)
    (ht : titleOkB tp nd = true) (h : appInvB tp st = true) :
    appInvB tp (_handle_note_update st noteId nd) = true := by
  rw [appInv_split] at h ⊢
  refine ⟨idInv_handle_note_update st noteId nd hid h.1, ?_⟩
  rw [titleInv_split] at h ⊢
  rcases h with ⟨h1, ⟨h2, h3⟩⟩
  exact ⟨all_aInsert _ _ _ _ h2 ht, h3⟩

theorem appInv_windowCloseEvent (tp : String → String) (st : AppState)
    (noteId : String) (w : WinState) (g : Geom) (hid : w.data.id = noteId)
    (ht : titleOkB tp w.data = true) (h : appInvB tp st = true) :
    appInvB tp (windowCloseEvent st noteId w g) = true := by
  rw [appInv_split] at h ⊢
  refine ⟨idInv_windowCloseEvent st noteId w g hid h.1, ?_⟩
  rw [titleInv_split] at h ⊢
  rcases h with ⟨h1, ⟨h2, h3⟩⟩
  constructor
  · exact all_aInsert _ _ _ _ h2 (by rw [titleOk_setGeomOnClose]; exact ht)
  · exact all_aUpdate _ _ _ _ h3 (by rw [titleOk_setGeomOnClose]; exact ht)

theorem appInv_openNewWindow (tp : String → String) (st : AppState)
    (noteId : String) (h : appInvB tp st = true) :
    appInvB tp (openNewWindow st noteId) = true := by
  unfold openNewWindow
  rcases hl : aLookup st.notes noteId with _ | nd
  · exact h
  · have hI := (appInv_split tp st).mp h
    have hidn : nd.id = noteId := by
      have h2 := aLookup_of_all _ st.notes noteId nd
        ((idInv_split st).mp hI.1).1 hl
      simpa using h2
    have ht : titleOkB tp nd = true :=
      aLookup_of_all _ st.notes noteId nd
        ((titleInv_split tp st).mp hI.2).1 hl
    rw [appInv_split]
    constructor
    · rw [idInv_split]
      exact ⟨((idInv_split st).mp hI.1).1,
        all_aInsert _ _ _ _ ((idInv_split st).mp hI.1).2 (by simp [hidn])⟩
    · rw [titleInv_split]
      exact ⟨((titleInv_split tp st).mp hI.2).1,
        all_aInsert _ _ _ _ ((titleInv_split tp st).mp hI.2).2 ht⟩

theorem appInv_open_sticky_note (tp : String → String) (st : AppState)
    (noteId : String) (h : appInvB tp st = true) :
    appInvB tp (_open_sticky_note st noteId) = true := by
  unfold _open_sticky_note
  rcases hl : aLookup st.openWins noteId with _ | w
  · simp only [hl]
    exact appInv_openNewWindow tp st noteId h
  · simp only [hl]
    split
    · exact h
    · exact appInv_openNewWindow tp st noteId h

theorem appInv_add_new_note (tp : String → String) (st : AppState)
    (newId : String) (h : appInvB tp st = true) :
    appInvB tp (_add_new_note st newId) = true := by
  unfold _add_new_note
  apply appInv_open_sticky_note
  rw [appInv_split] at h ⊢
  constructor
  · rw [idInv_split]
    exact ⟨all_aInsert _ _ _ _ ((idInv_split st).mp h.1).1 (by simp [newNoteData]),
      ((idInv_split st).mp h.1).2⟩
  · rw [titleInv_split]
    exact ⟨all_aInsert _ _ _ _ ((titleInv_split tp st).mp h.2).1
      (titleOk_newNoteData tp newId), ((titleInv_split tp st).mp h.2).2⟩

theorem appInv_editTextStep (tp : String → String) (st : AppState)
    (noteId : String) (html : String) (h : appInvB tp st = true) :
    appInvB tp (editTextStep tp st noteId html) = true := by
  unfold editTextStep
  rcases hl : aLookup st.openWins noteId with _ | w
  · exact h
  · have hI := (appInv_split tp st).mp h
    have hid : w.data.id = noteId := by
      have h2 := aLookup_of_all _ st.openWins noteId w
        ((idInv_split st).mp hI.1).2 hl
      simpa using h2
    have hnd : (_on_text_changed tp noteId w.data html).id = noteId := hid
    have ht : titleOkB tp (_on_text_changed tp noteId w.data html) = true :=
      titleOk_on_text_changed tp noteId w.data html hid
    apply appInv_handle_note_update tp _ noteId _ hnd ht
    rw [appInv_split]
    constructor
    · rw [idInv_split]
      exact ⟨((idInv_split st).mp hI.1).1,
        all_aUpdate _ _ _ _ ((idInv_split st).mp hI.1).2 (by simpa using hnd)⟩
    · rw [titleInv_split]
      exact ⟨((titleInv_split tp st).mp hI.2).1,
        all_aUpdate _ _ _ _ ((titleInv_split tp st).mp hI.2).2 ht⟩

theorem appInv_closeStep (tp : String → String) (st : AppState)
    (noteId : String) (g : Geom) (h : appInvB tp st = true) :
    appInvB tp (closeStep st noteId g) = true := by
  unfold closeStep
  rcases hl : aLookup st.openWins noteId with _ | w
  · exact h
  · have hI := (appInv_split tp st).mp h
    have hid : w.data.id = noteId := by
      have h2 := aLookup_of_all _ st.openWins noteId w
        ((idInv_split st).mp hI.1).2 hl
      simpa using h2
    have ht : titleOkB tp w.data = true :=
      aLookup_of_all _ st.openWins noteId w
        ((titleInv_split tp st).mp hI.2).2 hl
    simp only [hl]
    split
    · exact appInv_windowCloseEvent tp st noteId w g hid ht h
    · exact h

theorem appInv_handle_note_deletion (tp : String → String) (st : AppState)
    (noteId : String) (g : Geom) (h : appInvB tp st = true) :
    appInvB tp (_handle_note_deletion st noteId g) = true := by
  obtain ⟨ns, ws⟩ := st
  have hI := (appInv_split tp ⟨ns, ws⟩).mp h
  unfold _handle_note_deletion
  split
  · have h1 : appInvB tp ⟨aErase ns noteId, ws⟩ = true := by
      rw [appInv_split]
      constructor
      · rw [idInv_split]
        exact ⟨all_aErase _ _ _ ((idInv_split _).mp hI.1).1,
          ((idInv_split _).mp hI.1).2⟩
      · rw [titleInv_split]
        exact ⟨all_aErase _ _ _ ((titleInv_split tp _).mp hI.2).1,
          ((titleInv_split tp _).mp hI.2).2⟩
    show appInvB tp
      (match aLookup ws noteId with
       | some w =>
         let st2 := windowCloseEvent ⟨aErase ns noteId, ws⟩ noteId w g
         { st2 with openWins := aErase st2.openWins noteId }
       | none => ⟨aErase ns noteId, ws⟩) = true
    rcases hl : aLookup ws noteId with _ | w
    · exact h1
    · have hid : w.data.id = noteId := by
        have h2 := aLookup_of_all _ ws noteId w ((idInv_split _).mp hI.1).2 hl
        simpa using h2
      have ht : titleOkB tp w.data = true :=
        aLookup_of_all _ ws noteId w ((titleInv_split tp _).mp hI.2).2 hl
      have h2 := appInv_windowCloseEvent tp ⟨aErase ns noteId, ws⟩ noteId w g
        hid ht h1
      have h3 := (appInv_split tp _).mp h2
      rw [appInv_split]
      constructor
      · rw [idInv_split]
        exact ⟨((idInv_split _).mp h3.1).1,
          all_aErase _ _ _ ((idInv_split _).mp h3.1).2⟩
      · rw [titleInv_split]
        exact ⟨((titleInv_split tp _).mp h3.2).1,
          all_aErase _ _ _ ((titleInv_split tp _).mp h3.2).2⟩
  · exact h

theorem appInv_delete_note (tp : String → String) (st : AppState)
    (noteId : String) (w : WinState) (g : Geom) (hid : w.data.id = noteId)
    (ht : titleOkB tp w.data = true) (h : appInvB tp st = true) :
    appInvB tp (_delete_note st noteId w g) = true := by
  unfold _delete_note
  exact appInv_windowCloseEvent tp _ noteId w g hid ht
    (appInv_handle_note_deletion tp st noteId g h)

theorem appInv_applyOp (tp : String → String) (st : AppState) (op : Op)
    (h : appInvB tp st = true) : appInvB tp (applyOp tp st op) = true := by
  cases op with
  | addNew newId => exact appInv_add_new_note tp st newId h
  | openNote noteId => exact appInv_open_sticky_note tp st noteId h
  | editText noteId html => exact appInv_editTextStep tp st noteId html h
  | closeWin noteId g => exact appInv_closeStep tp st noteId g h
  | deleteFromToolbar noteId g =>
    exact appInv_handle_note_deletion tp st noteId g h
  | deleteFromWindow noteId g =>
    simp only [applyOp]
    rcases hl : aLookup st.openWins noteId with _ | w
    · exact h
    · have hI := (appInv_split tp st).mp h
      have hid : w.data.id = noteId := by
        have h2 := aLookup_of_all _ st.openWins noteId w
          ((idInv_split st).mp hI.1).2 hl
        simpa using h2
      have ht : titleOkB tp w.data = true :=
        aLookup_of_all _ st.openWins noteId w
          ((titleInv_split tp st).mp hI.2).2 hl
      simp only [hl]
      split
      · exact appInv_delete_note tp st noteId w g hid ht h
      · exact h

/-- A concrete stand-in for Qt's HTML-to-plain-text conversion, used to
instantiate the abstracted `tp` parameter at concrete inputs: the
identity, which agrees with `QTextDocument.toPlainText` on the only
payload the concrete statements below feed it, the empty string
(`toPlainText` of an empty document is empty). -/
def plainTextId : String → String := fun s => s

/-- A concrete note record whose window is open. -/
def cexNote : Note := ⟨"n1", "New Note", "", 100, 100, 400, 300⟩

/-- The state with exactly `cexNote` in the store and its window
registered and visible. -/
def cexState : AppState := ⟨[("n1", cexNote)], [("n1", ⟨cexNote, true⟩)]⟩

/-- The geometry of the open window at deletion time. -/
def cexGeom : Geom := ⟨100, 100, 400, 300⟩

/-- C1: at a state where `"n1"` is in both the store and the
open-window registry, both deletion paths (toolbar preview and open
window) leave `"n1"` PRESENT in the store — `_handle_note_deletion`
closes the registered window, whose `closeEvent` synchronously emits
`note_updated`, and `_handle_note_update` re-inserts the record the
deletion just removed — while the registry entry is removed.  This
contradicts the claim that the id ends up absent from both: the code is
at fault (its own intent, deletion plus persist, is undone by the
window-close hook it triggers). -/
theorem delete_of_open_note_resurrects_record :
    (aMem (_delete_note_from_toolbar cexState "n1" cexGeom).notes "n1" = true
     ∧ aMem (_delete_note_from_toolbar cexState "n1" cexGeom).openWins "n1" = false)
    ∧ (aMem (_delete_note cexState "n1" ⟨cexNote, true⟩ cexGeom).notes "n1" = true
     ∧ aMem (_delete_note cexState "n1" ⟨cexNote, true⟩ cexGeom).openWins "n1" = false) := by
  decide

/-- C3: a resize move from the bottom-right corner with positive deltas
on a start geometry respecting the window's minimum size (as every
geometry Qt hands the handler does) grows width and height by exactly
`(dx, dy)` and leaves `(x, y)` unchanged; from the top-left corner,
while the resized window stays at or above the minimum size, the anchor
moves by `(dx, dy)` and the dimensions shrink by the same amounts. -/
theorem resize_corner_geometry (rect : Geom) (dx dy : Int) :
    (minW ≤ rect.w → minH ≤ rect.h → 0 < dx → 0 < dy →
      resizeMove bottomRightEdge rect dx dy
        = ⟨rect.x, rect.y, rect.w + dx, rect.h + dy⟩)
    ∧ (minW ≤ rect.w - dx → minH ≤ rect.h - dy →
      resizeMove topLeftEdge rect dx dy
        = ⟨rect.x + dx, rect.y + dy, rect.w - dx, rect.h - dy⟩) := by
  constructor
  · intro h1 h2 h3 h4
    simp only [resizeMove, bottomRightEdge, Geom.mk.injEq]
    refine ⟨?_, ?_, ?_, ?_⟩ <;> simp <;> omega
  · intro h1 h2
    simp only [resizeMove, topLeftEdge, Geom.mk.injEq]
    refine ⟨?_, ?_, ?_, ?_⟩ <;> simp <;> intros <;> omega

/-- Witness for C3 at the concrete geometry (0, 0, 400, 300) with
delta (7, 5). -/
theorem resize_corner_geometry_witness :
    resizeMove bottomRightEdge ⟨0, 0, 400, 300⟩ 7 5 = ⟨0, 0, 407, 305⟩
    ∧ resizeMove topLeftEdge ⟨0, 0, 400, 300⟩ 7 5 = ⟨7, 5, 393, 295⟩ :=
  ⟨(resize_corner_geometry ⟨0, 0, 400, 300⟩ 7 5).1 (by decide) (by decide)
      (by decide) (by decide),
   (resize_corner_geometry ⟨0, 0, 400, 300⟩ 7 5).2 (by decide) (by decide)⟩

/-- C4 counterexample: dragging the left edge of a window that is
already at the minimum width (200) rightwards by 10 moves the window —
`new_x = x + 10` while the width stays clamped at 200 — so the right
edge does NOT stay fixed: `new_x + new_w = 210 ≠ x + w = 200`.  The
compensation in the source is guarded by
`rect.width() > self.minimumWidth()`, which is false at the minimum. -/
theorem resize_left_at_min_breaks_anchor :
    ¬ ((resizeMove leftEdge ⟨0, 0, 200, 300⟩ 10 0).x
        + (resizeMove leftEdge ⟨0, 0, 200, 300⟩ 10 0).w = 0 + 200) := by
  decide

/-- C4 amended: for every edge set dragging the left (resp. top) edge,
any start geometry and any delta, the resulting width (resp. height) is
clamped to the minimum; and whenever the start dimension is strictly
above the minimum, the opposite edge stays fixed
(`new_x + new_w = x + w`, resp. `new_y + new_h = y + h`).  At a start
dimension exactly equal to the minimum an inward drag moves the anchor
without compensation (see the counterexample). -/
theorem resize_edge_clamp_and_anchor (es : EdgeSet) (rect : Geom)
    (dx dy : Int) :
    (es.hasLeft = true → minW ≤ (resizeMove es rect dx dy).w)
    ∧ (es.hasTop = true → minH ≤ (resizeMove es rect dx dy).h)
    ∧ (es.hasLeft = true → minW < rect.w →
        (resizeMove es rect dx dy).x + (resizeMove es rect dx dy).w
          = rect.x + rect.w)
    ∧ (es.hasTop = true → minH < rect.h →
        (resizeMove es rect dx dy).y + (resizeMove es rect dx dy).h
          = rect.y + rect.h) := by
  refine ⟨?_, ?_, ?_, ?_⟩
  · intro h
    simp only [resizeMove, h]
    simp
  · intro h
    simp only [resizeMove, h]
    simp
  · intro h hw
    simp only [resizeMove, h]
    simp
    omega
  · intro h hh
    simp only [resizeMove, h]
    simp
    omega

/-- Witness for the amended C4: dragging the left edge of a
300-wide window rightwards by 500 clamps the width to 200 and keeps the
right edge at 300. -/
theorem resize_edge_clamp_and_anchor_witness :
    minW ≤ (resizeMove leftEdge ⟨0, 0, 300, 300⟩ 500 0).w
    ∧ (resizeMove leftEdge ⟨0, 0, 300, 300⟩ 500 0).x
        + (resizeMove leftEdge ⟨0, 0, 300, 300⟩ 500 0).w = 0 + 300 :=
  ⟨(resize_edge_clamp_and_anchor leftEdge ⟨0, 0, 300, 300⟩ 500 0).1 rfl,
   (resize_edge_clamp_and_anchor leftEdge ⟨0, 0, 300, 300⟩ 500 0).2.2.1 rfl
     (by decide)⟩

/-- C7: on a store holding exactly the three notes titled `"abcdef"`,
`"xyz"` and `"ABCtest"` (any ids, contents and geometries), rendering
with filter text `"abc"` displays exactly the first and third, in
case-insensitive sorted-title order (`"abcdef"` before `"ABCtest"`). -/
theorem filter_abc_case_insensitive_sorted (i1 i2 i3 c1 c2 c3 : String)
    (x1 y1 w1 h1 x2 y2 w2 h2 x3 y3 w3 h3 : Int) :
    _display_notes
      [(i1, ⟨i1, "abcdef", c1, x1, y1, w1, h1⟩),
       (i2, ⟨i2, "xyz", c2, x2, y2, w2, h2⟩),
       (i3, ⟨i3, "ABCtest", c3, x3, y3, w3, h3⟩)] "abc"
    = [(i1, "abcdef"), (i3, "ABCtest")] := rfl

/-- C8: `_on_text_changed` is idempotent on the note record for an
unchanged editor payload, and the title it writes is a function of the
content payload and the note identifier alone
(`deriveTitle tp html noteId`), for every HTML-to-text conversion. -/
theorem title_derivation_idempotent (tp : String → String)
    (noteId : String) (nd : Note) (html : String) :
    _on_text_changed tp noteId (_on_text_changed tp noteId nd html) html
      = _on_text_changed tp noteId nd html
    ∧ (_on_text_changed tp noteId nd html).title = deriveTitle tp html noteId :=
  ⟨rfl, rfl⟩

/-- C9 counterexample: immediately after `_add_new_note` the stored
record has title `"New Note"` and empty content, but the derived title
of empty content is the fallback `"New Note "` followed by the first
eight id characters — `"New Note 12345678"` — so the stored title is
NOT the derived title. -/
theorem fresh_note_title_not_derived :
    aLookup (applyOp plainTextId startState
      (Op.addNew "12345678-0000")).notes "12345678-0000"
      = some (newNoteData "12345678-0000")
    ∧ ¬ ((newNoteData "12345678-0000").title
        = deriveTitle plainTextId (newNoteData "12345678-0000").content
            (newNoteData "12345678-0000").id) := by
  constructor
  · rfl
  · decide

/-- C9 amended: over every sequence of user events starting from the
empty store, every store record and every open window's record either
carries the title derived from its content and id, or is an untouched
fresh note (constant title `"New Note"`, empty content): the invariant
`appInvB` holds at the start state and is preserved by every event, for
every HTML-to-text conversion. -/
theorem title_invariant_preserved (tp : String → String) :
    appInvB tp startState = true
    ∧ ∀ (st : AppState) (op : Op),
        appInvB tp st = true → appInvB tp (applyOp tp st op) = true :=
  ⟨rfl, fun st op h => appInv_applyOp tp st op h⟩

/-- Witness for the amended C9: one `addNew` event from the start
state keeps the invariant. -/
theorem title_invariant_preserved_witness :
    appInvB plainTextId (applyOp plainTextId startState (Op.addNew "n1"))
      = true :=
  (title_invariant_preserved plainTextId).2 startState (Op.addNew "n1")
    (by decide)

/-- C10: every store-mutating operation preserves the invariant that
each record's `"id"` field equals its store key: the load comprehension
establishes it for every file input (well-formed or not), and every
user event — add, open, edit, close, both deletion paths — preserves
the typed invariant `idInvB` covering the store and the window
registry. -/
theorem id_key_invariant_preserved :
    (∀ file : Option (Option JValue),
      (_load_notes file).all storeIdOkRaw = true)
    ∧ ∀ (tp : String → String) (st : AppState) (op : Op),
        idInvB st = true → idInvB (applyOp tp st op) = true :=
  ⟨load_establishes_idOk, idInv_applyOp⟩

/-- A record/state pair for the C10 witness. -/
def witNote : Note := ⟨"a", "t", "c", 1, 2, 3, 4⟩

/-- State holding `witNote` with its window open. -/
def witState : AppState := ⟨[("a", witNote)], [("a", ⟨witNote, true⟩)]⟩

/-- Witness for C10: a concrete load plus a concrete deletion event. -/
theorem id_key_invariant_preserved_witness :
    (_load_notes (some (some (notesFileValue wfExample)))).all storeIdOkRaw
      = true
    ∧ idInvB (applyOp plainTextId witState
        (Op.deleteFromToolbar "a" ⟨0, 0, 0, 0⟩)) = true :=
  ⟨id_key_invariant_preserved.1 (some (some (notesFileValue wfExample))),
   id_key_invariant_preserved.2 plainTextId witState
     (Op.deleteFromToolbar "a" ⟨0, 0, 0, 0⟩) (by decide)⟩

end StickyNotes
